import Mathlib

/-!
Shallow embedding of the background service-worker logic of the
x-ticker-tracker browser extension: the multi-period performance
computation, the quote cache with its size-based eviction, the quote
resolver with its two source adapters, and the saved-tweet record store
with its statistics reporting.

Conventions of the embedding:
* JavaScript numbers are modelled as rationals; null numeric values as
  Option.none.  Timestamps are integers (epoch milliseconds).
* A JavaScript object used as an ordered string-keyed map is modelled as
  a List of key/value pairs in insertion order (the keys in play are
  alphabetic ticker symbols, which JavaScript objects keep in insertion
  order).
* Array.prototype.sort is stable; it is modelled by the stable insertion
  sort sortBy below.
* Network effects are modelled by a Network oracle describing, for each
  request the code can issue, the parsed outcome of that request.
-/

/-- Stable insertion of one element: the new element goes after every
element already placed that compares le-before-or-equal to it, matching
the stable order JavaScript's sort produces for ties. -/
def insertBy {α : Type} (le : α → α → Bool) (x : α) : List α → List α
  | [] => [x]
  | y :: ys => if le y x then y :: insertBy le x ys else x :: y :: ys

/-- Stable sort (insertion sort), modelling Array.prototype.sort with a
comparator: elements that compare equal keep their original order. -/
def sortBy {α : Type} (le : α → α → Bool) (l : List α) : List α :=
  l.foldl (fun acc x => insertBy le x acc) []

/-- Performance map keyed by period label; a missing key is none.
Mirrors the JavaScript performance object with keys 1D, 1M, YTD, 1Y, 5Y. -/
structure Perf where
  p1D : Option ℚ
  p1M : Option ℚ
  pYTD : Option ℚ
  p1Y : Option ℚ
  p5Y : Option ℚ
deriving DecidableEq

def Perf.empty : Perf := ⟨none, none, none, none, none⟩

/-- Normalized quote record built by the adapters (the stockInfo object
of background.js). -/
structure StockInfo where
  symbol : String
  name : String
  currentPrice : Option ℚ
  priceFormatted : String
  currency : String
  marketCap : Option ℚ
  marketCapFormatted : String
  performance : Perf
  source : String
deriving DecidableEq

/-- The meta object of the Yahoo chart response; absent fields are none. -/
structure Meta where
  shortName : Option String
  longName : Option String
  regularMarketPrice : Option ℚ
  previousClose : Option ℚ
  currency : Option String
deriving DecidableEq

/-- Parsed body of a successful local-server /quote/{symbol} response. -/
structure LocalData where
  symbol : String
  name : String
  price : Option ℚ
  priceFormatted : Option String
  currency : Option String
  marketCap : Option ℚ
  marketCapFormatted : Option String
  performance : Option Perf
deriving DecidableEq

/-- Network oracle: outcome of each request the background code can make.
quoteChart is Except so that a thrown fetch (error) is distinguished from
a non-ok or meta-less response (ok none); rangeCloses and localServer
collapse every failure to none because the corresponding code catches
all of its own errors. -/
structure Network where
  quoteChart : String → Except Unit (Option Meta)
  rangeCloses : String → String → String → Option (List (Option ℚ))
  localServer : String → Option LocalData

/-- JavaScript string-valued a or-else b: none and the empty string are
falsy and fall through to b. -/
def jsOr (a : Option String) (b : String) : String :=
  match a with
  | none => b
  | some s => if s = "" then b else s

/-- JavaScript numeric truthiness for an optional number: null/undefined
and zero are falsy. -/
def jsTruthy (q : Option ℚ) : Bool :=
  match q with
  | none => false
  | some x => decide (x ≠ 0)

/-- Number rendered with two decimal places, modelling toFixed(2).  The
hundredths value is round(|q| * 100), computed on the numerator and
denominator directly: round(a / b) = floor((2 a + b) / (2 b)). -/
def toFixed2 (q : ℚ) : String :=
  let sign := if q < 0 then "-" else ""
  let n : ℕ := (q.num.natAbs * 200 + q.den) / (2 * q.den)
  sign ++ toString (n / 100) ++ "." ++
    (if n % 100 < 10 then "0" else "") ++ toString (n % 100)

/-- formatMarketCap of the handoff background script: magnitude suffix
with two decimals, N/A for a missing or zero value. -/
def formatMarketCap (value : Option ℚ) : String :=
  match value with
  | none => "N/A"
  | some v =>
    if v = 0 then "N/A"
    else if 1000000000000 ≤ v then "$" ++ toFixed2 (v / 1000000000000) ++ "T"
    else if 1000000000 ≤ v then "$" ++ toFixed2 (v / 1000000000) ++ "B"
    else if 1000000 ≤ v then "$" ++ toFixed2 (v / 1000000) ++ "M"
    else if 1000 ≤ v then "$" ++ toFixed2 (v / 1000) ++ "K"
    else "$" ++ toFixed2 v

/-- First non-null close scanning forward from the start of the series
(the startPrice loop of fetchPerformanceForRange). -/
def firstValidClose : List (Option ℚ) → Option ℚ
  | [] => none
  | some x :: _ => some x
  | none :: rest => firstValidClose rest

/-- Last non-null close, found by the backward scan of
fetchPerformanceForRange (independent of the forward scan). -/
def lastValidClose (closes : List (Option ℚ)) : Option ℚ :=
  firstValidClose closes.reverse

/-- Number of non-null closes in a series. -/
def validCloseCount (closes : List (Option ℚ)) : ℕ :=
  (closes.filter Option.isSome).length

/-- Pure core of fetchPerformanceForRange, applied to the parsed close
series: null on an empty series, a missing endpoint, or a zero start
price; otherwise the percent change between the two endpoints. -/
def perfOfCloses (closes : List (Option ℚ)) : Option ℚ :=
  if closes.length = 0 then none
  else
    match firstValidClose closes, lastValidClose closes with
    | some startPrice, some endPrice =>
        if startPrice = 0 then none
        else some ((endPrice - startPrice) / startPrice * 100)
    | _, _ => none

/-- fetchPerformanceForRange: every network or shape failure yields none
(the function catches its own errors); otherwise the close series is
reduced by perfOfCloses. -/
def fetchPerformanceForRange (net : Network) (symbol range interval : String) :
    Option ℚ :=
  match net.rangeCloses symbol range interval with
  | none => none
  | some closes => perfOfCloses closes

/-- fetchFromLocalServer: none on any failure (all errors are caught);
on success the response body is normalized into a StockInfo tagged
local-server. -/
def fetchFromLocalServer (net : Network) (symbol : String) : Option StockInfo :=
  (net.localServer symbol).map fun data =>
    { symbol := data.symbol
      name := data.name
      currentPrice := data.price
      priceFormatted :=
        jsOr data.priceFormatted
          (match data.price with
           | some p => toFixed2 p
           | none => "N/A")
      currency := jsOr data.currency "USD"
      marketCap := data.marketCap
      marketCapFormatted := jsOr data.marketCapFormatted (formatMarketCap data.marketCap)
      performance := data.performance.getD Perf.empty
      source := "local-server" }

/-- The meta branch of fetchFromYahooFinanceDirect: copy the price
fields and compute the 1D performance from the previous close when both
prices are truthy. -/
def applyMeta (symbol : String) (base : StockInfo) (m : Option Meta) : StockInfo :=
  match m with
  | none => base
  | some meta =>
    let s :=
      { base with
        name := jsOr meta.shortName (jsOr meta.longName symbol)
        currentPrice := meta.regularMarketPrice
        priceFormatted :=
          match meta.regularMarketPrice with
          | some p => toFixed2 p
          | none => "N/A"
        currency := jsOr meta.currency "USD" }
    if jsTruthy meta.regularMarketPrice && jsTruthy meta.previousClose
        && !(meta.previousClose == some 0) then
      match meta.regularMarketPrice, meta.previousClose with
      | some price, some prev =>
          { s with performance := { s.performance with p1D := some ((price - prev) / prev * 100) } }
      | _, _ => s
    else s

/-- fetchFromYahooFinanceDirect, paired with the number of network
requests it issues: 1 when the initial chart fetch throws, otherwise 5
(the chart fetch plus the four range fetches).  It fails exactly when no
current price was obtained (currentPrice is modelled as Option, merging
the null and undefined states of the JavaScript value). -/
def fetchFromYahooFinanceDirect (net : Network) (symbol : String) :
    Except String StockInfo × ℕ :=
  match net.quoteChart symbol with
  | .error _ => (.error "fetch failed", 1)
  | .ok metaQ =>
    let base : StockInfo :=
      { symbol := symbol
        name := symbol
        currentPrice := none
        priceFormatted := "N/A"
        currency := "USD"
        marketCap := none
        marketCapFormatted := "N/A"
        performance := Perf.empty
        source := "yahoo-direct" }
    let s1 := applyMeta symbol base metaQ
    let perf1M := fetchPerformanceForRange net symbol "1mo" "1d"
    let perfYTD := fetchPerformanceForRange net symbol "ytd" "1d"
    let perf1Y := fetchPerformanceForRange net symbol "1y" "1d"
    let perf5Y := fetchPerformanceForRange net symbol "5y" "1wk"
    let s2 :=
      { s1 with
        performance :=
          { s1.performance with p1M := perf1M, pYTD := perfYTD, p1Y := perf1Y, p5Y := perf5Y } }
    if s2.currentPrice.isSome then (.ok s2, 5)
    else (.error "No data found for symbol", 5)

instance {ε α : Type} [DecidableEq ε] [DecidableEq α] : DecidableEq (Except ε α)
  | .ok x, .ok y =>
    match decEq x y with
    | isTrue h => isTrue (h ▸ rfl)
    | isFalse h => isFalse (fun hc => h (Except.ok.inj hc))
  | .error x, .error y =>
    match decEq x y with
    | isTrue h => isTrue (h ▸ rfl)
    | isFalse h => isFalse (fun hc => h (Except.error.inj hc))
  | .ok _, .error _ => isFalse (fun hc => Except.noConfusion hc)
  | .error _, .ok _ => isFalse (fun hc => Except.noConfusion hc)

/-- One cached quote with its fetch timestamp. -/
structure CacheEntry where
  data : StockInfo
  timestamp : ℤ
deriving DecidableEq

/-- The stock cache object, as an insertion-ordered association list. -/
abbrev StockCache := List (String × CacheEntry)

/-- Assignment cache[symbol] = e on a JavaScript object: replace in
place when the key exists, otherwise append at the end. -/
def putEntry (cache : StockCache) (symbol : String) (e : CacheEntry) : StockCache :=
  if cache.any (fun p => p.1 == symbol) then
    cache.map (fun p => if p.1 == symbol then (symbol, e) else p)
  else cache ++ [(symbol, e)]

/-- Comparator of saveStockCache: b.timestamp - a.timestamp sorts
entries by fetch timestamp descending. -/
def entryLE (a b : String × CacheEntry) : Bool :=
  decide (b.2.timestamp ≤ a.2.timestamp)

/-- saveStockCache: when more than 50 entries are held, keep only the 50
whose timestamps are most recent (stable sort descending, take 50). -/
def saveStockCache (cache : StockCache) : StockCache :=
  if cache.length > 50 then (sortBy entryLE cache).take 50 else cache

/-- Lookup cache[symbol]. -/
def findEntry (cache : StockCache) (symbol : String) : Option CacheEntry :=
  (cache.find? (fun p => p.1 == symbol)).map (fun p => p.2)

def CACHE_DURATION : ℤ := 15 * 60 * 1000

/-- The freshness check of fetchStockInfo: the cached quote when an
entry exists and is within CACHE_DURATION of now, otherwise none. -/
def cacheFresh (now : ℤ) (cache : StockCache) (symbol : String) : Option StockInfo :=
  match findEntry cache symbol with
  | some cached => if now - cached.timestamp < CACHE_DURATION then some cached.data else none
  | none => none

/-- Result of one resolution: a quote, or the error marker object
with symbol, name and the error flag. -/
inductive QuoteResult where
  | ok (info : StockInfo)
  | errorMarker (symbol name : String)
deriving DecidableEq

/-- fetchStockInfo of the handoff background script (the version in
background.js is the same resolver without the local-server tier): fresh
cache hit, else local adapter, else direct adapter, caching either
success; on total failure the error marker.  The third component counts
the network requests issued. -/
def fetchStockInfo (net : Network) (now : ℤ) (cache : StockCache) (symbol : String) :
    QuoteResult × StockCache × ℕ :=
  match cacheFresh now cache symbol with
  | some data => (.ok data, cache, 0)
  | none =>
    match fetchFromLocalServer net symbol with
    | some si =>
        (.ok si, saveStockCache (putEntry cache symbol ⟨si, now⟩), 1)
    | none =>
        match fetchFromYahooFinanceDirect net symbol with
        | (.ok si, n) =>
            (.ok si, saveStockCache (putEntry cache symbol ⟨si, now⟩), 1 + n)
        | (.error _, n) => (.errorMarker symbol symbol, cache, 1 + n)

/-- A saved-tweet record, restricted to the fields the background
operations inspect; a missing author is the empty string (falsy). -/
structure Tweet where
  id : String
  author : String
  tickers : List String
deriving DecidableEq

/-- Result object of addTweet; a success result leaves duplicate unset
(false). -/
structure AddResult where
  success : Bool
  duplicate : Bool
deriving DecidableEq

/-- addTweet, parameterized by the serialized length JSON.stringify
would report for a tweet list: reject a duplicate id without touching
the list; otherwise prepend, and drop the single last (oldest) record
when the serialized size of the new list exceeds 90000. -/
def addTweet (jsonLength : List Tweet → ℕ) (tweets : List Tweet) (tweetData : Tweet) :
    AddResult × List Tweet :=
  if tweets.any (fun t => t.id == tweetData.id) then
    (⟨false, true⟩, tweets)
  else
    let tweets1 := tweetData :: tweets
    let tweets2 := if jsonLength tweets1 > 90000 then tweets1.dropLast else tweets1
    (⟨true, false⟩, tweets2)

/-- deleteTweet: keep every record whose id differs, always report
success. -/
def deleteTweet (tweets : List Tweet) (tweetId : String) : Bool × List Tweet :=
  (true, tweets.filter (fun t => !(t.id == tweetId)))

/-- Increment of a count map entry: tickerCounts[k] = (tickerCounts[k] || 0) + 1
on an insertion-ordered object. -/
def bump (counts : List (String × ℕ)) (key : String) : List (String × ℕ) :=
  if counts.any (fun p => p.1 == key) then
    counts.map (fun p => if p.1 == key then (p.1, p.2 + 1) else p)
  else counts ++ [(key, 1)]

/-- Occurrence counts of a key stream, in first-appearance order. -/
def countsOf (xs : List String) : List (String × ℕ) :=
  xs.foldl bump []

/-- The tickerCounts object of getStats. -/
def tickerCounts (tweets : List Tweet) : List (String × ℕ) :=
  tweets.foldl (fun m tweet => tweet.tickers.foldl bump m) []

/-- The authorCounts object of getStats; a falsy (empty) author is
skipped. -/
def authorCounts (tweets : List Tweet) : List (String × ℕ) :=
  tweets.foldl (fun m tweet => if tweet.author == "" then m else bump m tweet.author) []

/-- Comparator of the top-N sorts: count descending. -/
def countLE (a b : String × ℕ) : Bool :=
  decide (b.2 ≤ a.2)

/-- The stats object returned to the popup. -/
structure Stats where
  totalTweets : ℕ
  totalTickers : ℕ
  topTickers : List (String × ℕ)
  topAuthors : List (String × ℕ)
  recentTweets : List Tweet
deriving DecidableEq

/-- getStats: totals, top-5 tickers and authors by count (stable sort
descending, take 5), and the first three records. -/
def getStats (tweets : List Tweet) : Stats :=
  let tc := tickerCounts tweets
  let ac := authorCounts tweets
  { totalTweets := tweets.length
    totalTickers := tc.length
    topTickers := (sortBy countLE tc).take 5
    topAuthors := (sortBy countLE ac).take 5
    recentTweets := tweets.take 3 }

/-- Whether a resolution produced a quote rather than the error marker. -/
def QuoteResult.isOk : QuoteResult → Bool
  | .ok _ => true
  | .errorMarker _ _ => false

/-- The ticker stream getStats iterates over: every ticker of every
record, in record order. -/
def allTickers (tweets : List Tweet) : List String :=
  (tweets.map (fun t => t.tickers)).flatten

/-- The author stream getStats counts: the author of every record whose
author field is truthy, in record order. -/
def authorsOf (tweets : List Tweet) : List String :=
  (tweets.filter (fun t => !(t.author == ""))).map (fun t => t.author)

/-- Invariant tying a count map to the stream of keys already seen:
keys are distinct, keys are exactly the seen values, and each key maps
to its number of occurrences. -/
def goodCounts (m : List (String × ℕ)) (seen : List String) : Prop :=
  (m.map Prod.fst).Nodup ∧
  (∀ k, k ∈ m.map Prod.fst ↔ k ∈ seen) ∧
  (∀ p ∈ m, p.2 = seen.count p.1)

/-- What the cache eviction is claimed to leave behind, relative to the
pre-trim cache c: exactly 50 entries, forming together with the dropped
entries a permutation of c in which every dropped timestamp is at most
every kept timestamp, and, within each timestamp, the kept entries are
an initial segment of the entries of c in original insertion order. -/
def keeps50MostRecent (c r : StockCache) : Prop :=
  r.length = 50 ∧
  (∃ dropped, (r ++ dropped).Perm c ∧
    ∀ x ∈ r, ∀ y ∈ dropped, y.2.timestamp ≤ x.2.timestamp) ∧
  (∀ t : ℤ, r.filter (fun p => p.2.timestamp == t) <+:
    c.filter (fun p => p.2.timestamp == t))

/-- Concrete quote used as witness data. -/
def dummyInfo : StockInfo :=
  ⟨"T", "T", none, "N/A", "USD", none, "N/A", Perf.empty, "yahoo-direct"⟩

/-- Oracle on which every request fails. -/
def netFail : Network :=
  ⟨fun _ => Except.error (), fun _ _ _ => none, fun _ => none⟩

/-- Chart meta with a current price and no previous close. -/
def metaAAPL : Meta :=
  ⟨some "Apple Inc.", none, some 150, none, some "USD"⟩

/-- Oracle on which the local server is down, the chart endpoint
answers with metaAAPL, and every range request fails. -/
def netDirect : Network :=
  ⟨fun _ => Except.ok (some metaAAPL), fun _ _ _ => none, fun _ => none⟩

/-- The quote the direct adapter builds from metaAAPL. -/
def directInfoAAPL : StockInfo :=
  ⟨"AAPL", "Apple Inc.", some 150, "150.00", "USD", none, "N/A",
    Perf.empty, "yahoo-direct"⟩

/-- A 60-entry cache used to exercise the eviction. -/
def cacheDemo : StockCache :=
  (List.range 60).map (fun i => (toString i, ⟨dummyInfo, (i : ℤ)⟩))

/-- A cache holding one entry fetched at time 0. -/
def staleCache : StockCache := [("ZZZZ", ⟨dummyInfo, 0⟩)]

/-- Three records with tickers AAPL; TSLA, AAPL; GME. -/
def demoTweets : List Tweet :=
  [⟨"1", "alice", ["AAPL"]⟩, ⟨"2", "bob", ["TSLA", "AAPL"]⟩, ⟨"3", "carol", ["GME"]⟩]

/-! Theorems.  First, the generic facts about the stable sort. -/

theorem insertBy_perm {α : Type} (le : α → α → Bool) (x : α) :
    ∀ l : List α, (insertBy le x l).Perm (x :: l)
  | [] => by simp [insertBy]
  | y :: ys => by
    rw [insertBy]
    by_cases h : le y x = true
    · rw [if_pos h]
      exact ((insertBy_perm le x ys).cons y).trans (List.Perm.swap x y ys)
    · rw [if_neg h]

theorem foldl_insertBy_perm {α : Type} (le : α → α → Bool) :
    ∀ (l acc : List α), (l.foldl (fun a x => insertBy le x a) acc).Perm (acc ++ l)
  | [], acc => by simp
  | x :: xs, acc => by
    have h1 := foldl_insertBy_perm le xs (insertBy le x acc)
    have h2 : (insertBy le x acc ++ xs).Perm (x :: (acc ++ xs)) :=
      (insertBy_perm le x acc).append_right xs
    exact (h1.trans h2).trans List.perm_middle.symm

theorem sortBy_perm {α : Type} (le : α → α → Bool) (l : List α) :
    (sortBy le l).Perm l := by
  simpa [sortBy] using foldl_insertBy_perm le l []

theorem insertBy_pairwise {α : Type} (le : α → α → Bool)
    (htrans : ∀ a b c, le a b = true → le b c = true → le a c = true)
    (htot : ∀ a b, le a b = true ∨ le b a = true) (x : α) :
    ∀ {l : List α}, l.Pairwise (fun a b => le a b = true) →
      (insertBy le x l).Pairwise (fun a b => le a b = true) := by
  intro l hl
  induction l with
  | nil => simp [insertBy]
  | cons y ys ih =>
    rcases List.pairwise_cons.mp hl with ⟨hy, hys⟩
    rw [insertBy]
    by_cases h : le y x = true
    · rw [if_pos h]
      refine List.pairwise_cons.mpr ⟨?_, ih hys⟩
      intro z hz
      rcases List.mem_cons.mp ((insertBy_perm le x ys).mem_iff.mp hz) with rfl | hzys
      · exact h
      · exact hy z hzys
    · rw [if_neg h]
      have hxy : le x y = true := (htot x y).resolve_right (fun hc => h hc)
      refine List.pairwise_cons.mpr ⟨?_, hl⟩
      intro z hz
      rcases List.mem_cons.mp hz with rfl | hzys
      · exact hxy
      · exact htrans x y z hxy (hy z hzys)

theorem foldl_insertBy_pairwise {α : Type} (le : α → α → Bool)
    (htrans : ∀ a b c, le a b = true → le b c = true → le a c = true)
    (htot : ∀ a b, le a b = true ∨ le b a = true) :
    ∀ (l acc : List α), acc.Pairwise (fun a b => le a b = true) →
      (l.foldl (fun a x => insertBy le x a) acc).Pairwise (fun a b => le a b = true)
  | [], _, hacc => hacc
  | x :: xs, acc, hacc =>
    foldl_insertBy_pairwise le htrans htot xs (insertBy le x acc)
      (insertBy_pairwise le htrans htot x hacc)

theorem sortBy_pairwise {α : Type} (le : α → α → Bool)
    (htrans : ∀ a b c, le a b = true → le b c = true → le a c = true)
    (htot : ∀ a b, le a b = true ∨ le b a = true) (l : List α) :
    (sortBy le l).Pairwise (fun a b => le a b = true) :=
  foldl_insertBy_pairwise le htrans htot l [] (by simp)

theorem insertBy_filter_neg {α : Type} (le : α → α → Bool) (p : α → Bool)
    (x : α) (hx : ¬ p x = true) :
    ∀ l : List α, (insertBy le x l).filter p = l.filter p
  | [] => by simp [insertBy, hx]
  | y :: ys => by
    rw [insertBy]
    by_cases h : le y x = true
    · rw [if_pos h]
      simp [List.filter_cons, insertBy_filter_neg le p x hx ys]
    · rw [if_neg h]
      simp [List.filter_cons, hx]

theorem insertBy_filter_pos {α : Type} (le : α → α → Bool)
    (htrans : ∀ a b c, le a b = true → le b c = true → le a c = true)
    (p : α → Bool) (hp : ∀ a b, p a = true → p b = true → le a b = true)
    (x : α) (hx : p x = true) :
    ∀ {l : List α}, l.Pairwise (fun a b => le a b = true) →
      (insertBy le x l).filter p = l.filter p ++ [x] := by
  intro l hl
  induction l with
  | nil => simp [insertBy, hx]
  | cons y ys ih =>
    rcases List.pairwise_cons.mp hl with ⟨hy, hys⟩
    rw [insertBy]
    by_cases h : le y x = true
    · rw [if_pos h]
      by_cases hpy : p y = true
      · simp [List.filter_cons, hpy, ih hys]
      · simp [List.filter_cons, hpy, ih hys]
    · rw [if_neg h]
      have hnil : (y :: ys).filter p = [] := by
        refine List.filter_eq_nil_iff.mpr ?_
        intro z hz hpz
        rcases List.mem_cons.mp hz with rfl | hzys
        · exact h (hp z x hpz hx)
        · exact h (htrans y z x (hy z hzys) (hp z x hpz hx))
      simp [List.filter_cons, hx, hnil]

theorem foldl_insertBy_filter {α : Type} (le : α → α → Bool)
    (htrans : ∀ a b c, le a b = true → le b c = true → le a c = true)
    (htot : ∀ a b, le a b = true ∨ le b a = true)
    (p : α → Bool) (hp : ∀ a b, p a = true → p b = true → le a b = true) :
    ∀ (l acc : List α), acc.Pairwise (fun a b => le a b = true) →
      (l.foldl (fun a x => insertBy le x a) acc).filter p = acc.filter p ++ l.filter p
  | [], acc, hacc => by simp
  | x :: xs, acc, hacc => by
    have hrec := foldl_insertBy_filter le htrans htot p hp xs (insertBy le x acc)
      (insertBy_pairwise le htrans htot x hacc)
    by_cases hx : p x = true
    · rw [List.foldl_cons, hrec, insertBy_filter_pos le htrans p hp x hx hacc]
      simp [List.filter_cons, hx]
    · rw [List.foldl_cons, hrec, insertBy_filter_neg le p x hx acc]
      simp [List.filter_cons, hx]

theorem sortBy_filter {α : Type} (le : α → α → Bool)
    (htrans : ∀ a b c, le a b = true → le b c = true → le a c = true)
    (htot : ∀ a b, le a b = true ∨ le b a = true)
    (p : α → Bool) (hp : ∀ a b, p a = true → p b = true → le a b = true)
    (l : List α) : (sortBy le l).filter p = l.filter p := by
  simpa [sortBy] using foldl_insertBy_filter le htrans htot p hp l [] (by simp)

theorem sortBy_take_drop_le {α : Type} (le : α → α → Bool)
    (htrans : ∀ a b c, le a b = true → le b c = true → le a c = true)
    (htot : ∀ a b, le a b = true ∨ le b a = true) (l : List α) (n : ℕ) :
    ∀ x ∈ (sortBy le l).take n, ∀ y ∈ (sortBy le l).drop n, le x y = true := by
  have hs := sortBy_pairwise le htrans htot l
  rw [← List.take_append_drop n (sortBy le l)] at hs
  exact fun x hx y hy => ((List.pairwise_append.mp hs).2.2) x hx y hy

/-! Facts about the count maps built by bump. -/

theorem bump_good (m : List (String × ℕ)) (seen : List String) (k : String)
    (h : goodCounts m seen) : goodCounts (bump m k) (seen ++ [k]) := by
  obtain ⟨hnd, hmem, hcount⟩ := h
  rw [bump]
  by_cases hany : m.any (fun p => p.1 == k) = true
  · rw [if_pos hany]
    have hkeys : (m.map (fun p => if p.1 == k then (p.1, p.2 + 1) else p)).map Prod.fst
        = m.map Prod.fst := by
      rw [List.map_map]
      apply List.map_congr_left
      intro p _
      by_cases hpk : (p.1 == k) = true
      · rw [Function.comp_apply, if_pos hpk]
      · rw [Function.comp_apply, if_neg hpk]
    have hkmem : k ∈ m.map Prod.fst := by
      rcases List.any_eq_true.mp hany with ⟨p, hp, hpk⟩
      have hp1 : p.1 = k := by simpa using hpk
      exact hp1 ▸ List.mem_map_of_mem Prod.fst hp
    refine ⟨?_, ?_, ?_⟩
    · rw [hkeys]; exact hnd
    · intro j
      rw [hkeys, List.mem_append]
      constructor
      · intro hj; exact Or.inl ((hmem j).mp hj)
      · rintro (hj | hj)
        · exact (hmem j).mpr hj
        · have hj : j = k := by simpa using hj
          subst hj; exact hkmem
    · intro p hp
      rcases List.mem_map.mp hp with ⟨q, hq, hfq⟩
      by_cases hqk : (q.1 == k) = true
      · have hq1 : q.1 = k := by simpa using hqk
        rw [if_pos hqk] at hfq
        subst hfq
        have hc := hcount q hq
        simp [List.count_append, List.count_cons, List.count_nil, hq1, hc]
      · rw [if_neg hqk] at hfq
        subst hfq
        have hq1 : q.1 ≠ k := by simpa using hqk
        have hc := hcount q hq
        simp [List.count_append, List.count_cons, List.count_nil, hq1, hc]
  · rw [if_neg hany]
    have hall : ∀ p ∈ m, (p.1 == k) = false := by
      intro p hp
      by_contra hc
      exact hany (List.any_eq_true.mpr ⟨p, hp, by simpa using hc⟩)
    have hkn : k ∉ m.map Prod.fst := by
      intro hk
      rcases List.mem_map.mp hk with ⟨p, hp, hpk⟩
      have := hall p hp
      rw [hpk] at this
      simp at this
    have hks : k ∉ seen := fun hk => hkn ((hmem k).mpr hk)
    refine ⟨?_, ?_, ?_⟩
    · rw [List.map_append]
      refine List.Nodup.append hnd (List.nodup_singleton k) ?_
      intro a ha hak
      have : a = k := by simpa using hak
      exact hkn (this ▸ ha)
    · intro j
      rw [List.map_append, List.mem_append, List.mem_append]
      simp only [List.map_cons, List.map_nil, List.mem_singleton]
      rw [hmem j]
    · intro p hp
      rcases List.mem_append.mp hp with hp1 | hp2
      · have hpk : p.1 ≠ k := by
          have := hall p hp1
          simpa using this
        simp [List.count_append, hpk, ← hcount p hp1]
      · have hp2 : p = (k, 1) := by simpa using hp2
        subst hp2
        have : seen.count k = 0 := List.count_eq_zero.mpr hks
        simp [List.count_append, this]

theorem foldl_bump_good :
    ∀ (xs : List String) (m : List (String × ℕ)) (seen : List String),
      goodCounts m seen → goodCounts (xs.foldl bump m) (seen ++ xs)
  | [], _, _, h => by simpa using h
  | x :: xs, m, seen, h => by
    have hrec := foldl_bump_good xs (bump m x) (seen ++ [x]) (bump_good m seen x h)
    simpa [List.append_assoc] using hrec

theorem countsOf_good (xs : List String) : goodCounts (countsOf xs) xs := by
  have h := foldl_bump_good xs [] [] ⟨by simp, by simp, by simp⟩
  simpa [countsOf] using h

theorem countsOf_count {xs : List String} {p : String × ℕ} (hp : p ∈ countsOf xs) :
    p.2 = xs.count p.1 :=
  (countsOf_good xs).2.2 p hp

theorem countsOf_keys_nodup (xs : List String) : ((countsOf xs).map Prod.fst).Nodup :=
  (countsOf_good xs).1

theorem countsOf_mem_keys (xs : List String) (k : String) :
    k ∈ (countsOf xs).map Prod.fst ↔ k ∈ xs :=
  (countsOf_good xs).2.1 k

theorem foldl_tickers :
    ∀ (ts : List Tweet) (m : List (String × ℕ)),
      ts.foldl (fun m tweet => tweet.tickers.foldl bump m) m
        = ((ts.map (fun t => t.tickers)).flatten).foldl bump m
  | [], _ => rfl
  | t :: ts, m => by
    rw [List.foldl_cons, foldl_tickers ts, List.map_cons, List.flatten_cons,
      List.foldl_append]

theorem tickerCounts_eq (tweets : List Tweet) :
    tickerCounts tweets = countsOf (allTickers tweets) := by
  rw [tickerCounts, allTickers, countsOf, foldl_tickers]

theorem foldl_authors :
    ∀ (ts : List Tweet) (m : List (String × ℕ)),
      ts.foldl (fun m tweet => if tweet.author == "" then m else bump m tweet.author) m
        = (authorsOf ts).foldl bump m
  | [], _ => rfl
  | t :: ts, m => by
    by_cases h : t.author == ""
    · rw [List.foldl_cons, if_pos h, foldl_authors ts]
      simp [authorsOf, List.filter_cons, h]
    · rw [List.foldl_cons, if_neg h, foldl_authors ts]
      simp [authorsOf, List.filter_cons, h]

theorem authorCounts_eq (tweets : List Tweet) :
    authorCounts tweets = countsOf (authorsOf tweets) := by
  rw [authorCounts, countsOf, foldl_authors]

/-! Facts about the cache store. -/

theorem find_in_putEntry_map (symbol : String) (e : CacheEntry) :
    ∀ (c : StockCache), c.any (fun p => p.1 == symbol) = true →
      (c.map (fun p => if p.1 == symbol then (symbol, e) else p)).find?
        (fun p => p.1 == symbol) = some (symbol, e)
  | [], h => by simp at h
  | p :: ps, h => by
    by_cases hp : (p.1 == symbol) = true
    · rw [List.map_cons, if_pos hp]
      exact List.find?_cons_of_pos _ (by simp)
    · have hps : ps.any (fun q => q.1 == symbol) = true := by
        simpa [List.any_cons, hp] using h
      have hpf : (p.1 == symbol) = false := by simpa using hp
      rw [List.map_cons, if_neg hp]
      simp only [List.find?_cons, hpf]
      exact find_in_putEntry_map symbol e ps hps

theorem find_in_append (symbol : String) (e : CacheEntry) :
    ∀ (c : StockCache), (∀ p ∈ c, (p.1 == symbol) = false) →
      (c ++ [(symbol, e)]).find? (fun p => p.1 == symbol) = some (symbol, e)
  | [], _ => by
    rw [List.nil_append]
    exact List.find?_cons_of_pos _ (by simp)
  | p :: ps, hall => by
    have hp := hall p (List.mem_cons_self p ps)
    rw [List.cons_append]
    simp only [List.find?_cons, hp]
    exact find_in_append symbol e ps (fun q hq => hall q (List.mem_cons_of_mem p hq))

theorem findEntry_putEntry (cache : StockCache) (symbol : String) (e : CacheEntry) :
    findEntry (putEntry cache symbol e) symbol = some e := by
  rw [putEntry]
  by_cases h : cache.any (fun p => p.1 == symbol) = true
  · rw [if_pos h, findEntry, find_in_putEntry_map symbol e cache h]
    rfl
  · rw [if_neg h]
    have hall : ∀ p ∈ cache, (p.1 == symbol) = false := by
      intro p hp
      by_contra hc
      exact h (List.any_eq_true.mpr ⟨p, hp, by simpa using hc⟩)
    rw [findEntry, find_in_append symbol e cache hall]
    rfl

theorem putEntry_length (cache : StockCache) (symbol : String) (e : CacheEntry) :
    (putEntry cache symbol e).length ≤ cache.length + 1 := by
  rw [putEntry]
  split
  · rw [List.length_map]; omega
  · rw [List.length_append]; simp

theorem saveStockCache_small {cache : StockCache} (h : cache.length ≤ 50) :
    saveStockCache cache = cache := by
  rw [saveStockCache, if_neg (by omega)]

/-! Facts about the close-series scan. -/

theorem firstValidClose_eq_none :
    ∀ closes : List (Option ℚ), firstValidClose closes = none ↔ validCloseCount closes = 0
  | [] => by simp [firstValidClose, validCloseCount]
  | some x :: rest => by simp [firstValidClose, validCloseCount, List.filter_cons]
  | none :: rest => by
    simpa [firstValidClose, validCloseCount, List.filter_cons] using
      firstValidClose_eq_none rest

/-- Claim C1, corrected: the per-period performance computation returns
null when no non-null close exists or when the first non-null close is
0, and otherwise returns (lastValidClose - firstValidClose) /
firstValidClose * 100 with the endpoints found by independent scans from
each end of the series; with exactly one non-null close both scans find
that same close, so the result is 0 rather than null (the original
claim's fewer-than-2 case). -/
theorem c1_performance (closes : List (Option ℚ)) :
    (validCloseCount closes = 0 → perfOfCloses closes = none) ∧
    (firstValidClose closes = some 0 → perfOfCloses closes = none) ∧
    (∀ s e : ℚ, firstValidClose closes = some s → lastValidClose closes = some e →
      s ≠ 0 → perfOfCloses closes = some ((e - s) / s * 100)) := by
  refine ⟨?_, ?_, ?_⟩
  · intro h
    have h1 : firstValidClose closes = none := (firstValidClose_eq_none closes).mpr h
    by_cases hlen : closes.length = 0
    · simp [perfOfCloses, hlen]
    · rcases hlast : lastValidClose closes with _ | e
      · simp [perfOfCloses, hlen, h1, hlast]
      · simp [perfOfCloses, hlen, h1, hlast]
  · intro h0
    by_cases hlen : closes.length = 0
    · simp [perfOfCloses, hlen]
    · rcases hlast : lastValidClose closes with _ | e
      · simp [perfOfCloses, hlen, h0, hlast]
      · simp [perfOfCloses, hlen, h0, hlast]
  · intro s e hs he hsne
    have hlen : ¬ closes.length = 0 := by
      intro hz
      have hnil : closes = [] := List.length_eq_zero.mp hz
      rw [hnil] at hs
      simp [firstValidClose] at hs
    simp [perfOfCloses, hlen, hs, he, hsne]

/-- Witness for c1_performance at concrete close series. -/
theorem c1_performance_witness :
    perfOfCloses [none] = none ∧ perfOfCloses [some 0, some 3] = none ∧
    perfOfCloses [some 4, none, some 6] = some 50 := by
  refine ⟨(c1_performance [none]).1 (by decide),
          (c1_performance [some 0, some 3]).2.1 (by decide), ?_⟩
  have h := (c1_performance [some 4, none, some 6]).2.2 4 6 (by decide) (by decide)
    (by norm_num)
  rw [h]
  norm_num

/-- Counterexample to claim C1 as stated: the series with the single
non-null close 5 has fewer than 2 valid closes, yet the computation
returns 0, not null. -/
theorem c1_counterexample :
    validCloseCount [some (5 : ℚ)] < 2 ∧ perfOfCloses [some (5 : ℚ)] = some 0 := by
  constructor
  · decide
  · have h : perfOfCloses [some (5 : ℚ)] = some ((5 - 5) / 5 * 100) := by
      norm_num [perfOfCloses, firstValidClose, lastValidClose]
    rw [h]
    norm_num

/-- Claim C5: adding a record whose id equals the id of a stored record
returns the duplicate rejection and leaves the stored list unchanged in
length and content (the result is the original list itself). -/
theorem c5_addTweet_duplicate (jsonLength : List Tweet → ℕ) (tweets : List Tweet)
    (tweetData : Tweet) (h : ∃ t ∈ tweets, t.id = tweetData.id) :
    addTweet jsonLength tweets tweetData = (⟨false, true⟩, tweets) := by
  rcases h with ⟨t, ht, hid⟩
  have hany : tweets.any (fun t => t.id == tweetData.id) = true :=
    List.any_eq_true.mpr ⟨t, ht, by simpa using hid⟩
  rw [addTweet, if_pos hany]

/-- Witness for c5_addTweet_duplicate. -/
theorem c5_witness :
    addTweet (fun _ => 0) [⟨"1", "alice", ["AAPL"]⟩] ⟨"1", "bob", []⟩
      = (⟨false, true⟩, [⟨"1", "alice", ["AAPL"]⟩]) :=
  c5_addTweet_duplicate _ _ _ ⟨⟨"1", "alice", ["AAPL"]⟩, List.mem_singleton.mpr rfl, rfl⟩

/-- Claim C6: a non-duplicate add prepends the record at the front and,
when the serialized size of the new list exceeds 90000, drops exactly
the last (oldest) record; at most one record is dropped per add, and the
cap is soft: a single add can leave the stored size above it. -/
theorem c6_addTweet_cap (jsonLength : List Tweet → ℕ) (tweets : List Tweet)
    (tweetData : Tweet) (h : ∀ t ∈ tweets, t.id ≠ tweetData.id) :
    (addTweet jsonLength tweets tweetData).1 = ⟨true, false⟩ ∧
    (addTweet jsonLength tweets tweetData).2 =
      (if jsonLength (tweetData :: tweets) > 90000
       then (tweetData :: tweets).dropLast else tweetData :: tweets) ∧
    (addTweet jsonLength tweets tweetData).2.length =
      (if jsonLength (tweetData :: tweets) > 90000
       then tweets.length else tweets.length + 1) ∧
    tweets.length ≤ (addTweet jsonLength tweets tweetData).2.length ∧
    (∃ (f : List Tweet → ℕ) (ts : List Tweet) (t : Tweet),
      (∀ u ∈ ts, u.id ≠ t.id) ∧ f ((addTweet f ts t).2) > 90000) := by
  have hany : tweets.any (fun t => t.id == tweetData.id) = false := by
    rw [List.any_eq_false]
    intro t ht
    simpa using h t ht
  have heq : addTweet jsonLength tweets tweetData
      = (⟨true, false⟩,
         if jsonLength (tweetData :: tweets) > 90000
         then (tweetData :: tweets).dropLast else tweetData :: tweets) := by
    rw [addTweet, if_neg (by simp [hany])]
  rw [heq]
  refine ⟨rfl, rfl, ?_, ?_, ?_⟩
  · by_cases hc : jsonLength (tweetData :: tweets) > 90000
    · simp [hc, List.length_dropLast]
    · simp [hc]
  · by_cases hc : jsonLength (tweetData :: tweets) > 90000
    · simp [hc, List.length_dropLast]
    · simp [hc]
  · exact ⟨fun _ => 100001, [], ⟨"x", "", []⟩, by simp, by decide⟩

/-- Witness for c6_addTweet_cap. -/
theorem c6_witness :
    (addTweet (fun l => l.length) [⟨"1", "alice", ["AAPL"]⟩] ⟨"2", "bob", []⟩).1
        = ⟨true, false⟩ ∧
    (addTweet (fun l => l.length) [⟨"1", "alice", ["AAPL"]⟩] ⟨"2", "bob", []⟩).2
        = (if (2 : ℕ) > 90000
           then ([⟨"2", "bob", []⟩, ⟨"1", "alice", ["AAPL"]⟩] : List Tweet).dropLast
           else [⟨"2", "bob", []⟩, ⟨"1", "alice", ["AAPL"]⟩]) := by
  have h := c6_addTweet_cap (fun l => l.length) [⟨"1", "alice", ["AAPL"]⟩]
    ⟨"2", "bob", []⟩ (by decide)
  exact ⟨h.1, h.2.1⟩

/-- Claim C10: deletion always reports success, removes every record
with the given id, keeps every other record, preserves the relative
order of the remaining records, and leaves the list unchanged when
nothing matches. -/
theorem c10_deleteTweet (tweets : List Tweet) (tweetId : String) :
    (deleteTweet tweets tweetId).1 = true ∧
    (∀ t ∈ (deleteTweet tweets tweetId).2, t.id ≠ tweetId) ∧
    (deleteTweet tweets tweetId).2.Sublist tweets ∧
    (∀ t ∈ tweets, t.id ≠ tweetId → t ∈ (deleteTweet tweets tweetId).2) ∧
    ((∀ t ∈ tweets, t.id ≠ tweetId) → (deleteTweet tweets tweetId).2 = tweets) := by
  refine ⟨rfl, ?_, ?_, ?_, ?_⟩
  · intro t ht
    have hmem := List.of_mem_filter
      (show t ∈ tweets.filter (fun t => !(t.id == tweetId)) from ht)
    simpa using hmem
  · show (tweets.filter (fun t => !(t.id == tweetId))).Sublist tweets
    exact List.filter_sublist _
  · intro t ht hne
    show t ∈ tweets.filter (fun t => !(t.id == tweetId))
    exact List.mem_filter.mpr ⟨ht, by simpa using hne⟩
  · intro hall
    show tweets.filter (fun t => !(t.id == tweetId)) = tweets
    refine List.filter_eq_self.mpr ?_
    intro t ht
    simpa using hall t ht

/-- Witness for c10_deleteTweet. -/
theorem c10_witness :
    (deleteTweet [⟨"2", "b", []⟩] "1").2 = [⟨"2", "b", []⟩] :=
  (c10_deleteTweet [⟨"2", "b", []⟩] "1").2.2.2.2 (by decide)

theorem entryLE_trans : ∀ a b c : String × CacheEntry,
    entryLE a b = true → entryLE b c = true → entryLE a c = true := by
  intro a b c hab hbc
  simp only [entryLE, decide_eq_true_eq] at *
  exact le_trans hbc hab

theorem entryLE_total : ∀ a b : String × CacheEntry,
    entryLE a b = true ∨ entryLE b a = true := by
  intro a b
  simp only [entryLE, decide_eq_true_eq]
  exact le_total _ _

theorem saveStockCache_trim (c : StockCache) (h : c.length > 50) :
    keeps50MostRecent c (saveStockCache c) := by
  have hsave : saveStockCache c = (sortBy entryLE c).take 50 := by
    rw [saveStockCache, if_pos h]
  have hperm := sortBy_perm entryLE c
  have hlen : (sortBy entryLE c).length = c.length := hperm.length_eq
  refine ⟨?_, ?_, ?_⟩
  · rw [hsave, List.length_take, hlen]
    omega
  · refine ⟨(sortBy entryLE c).drop 50, ?_, ?_⟩
    · rw [hsave, List.take_append_drop]
      exact hperm
    · intro x hx y hy
      rw [hsave] at hx
      have hle := sortBy_take_drop_le entryLE entryLE_trans entryLE_total c 50 x hx y hy
      simpa [entryLE] using hle
  · intro t
    have hfil : (sortBy entryLE c).filter (fun p => p.2.timestamp == t)
        = c.filter (fun p => p.2.timestamp == t) := by
      apply sortBy_filter entryLE entryLE_trans entryLE_total
      intro a b ha hb
      have ha1 : a.2.timestamp = t := by simpa using ha
      have hb1 : b.2.timestamp = t := by simpa using hb
      simp [entryLE, ha1, hb1]
    rw [hsave, ← hfil]
    exact ⟨((sortBy entryLE c).drop 50).filter (fun p => p.2.timestamp == t),
      by rw [← List.filter_append, List.take_append_drop]⟩

/-- Claim C2: a put that leaves the cache with more than 50 entries is
trimmed to exactly 50; together with the dropped entries those 50 form a
permutation of the post-put cache, every dropped timestamp is at most
every kept timestamp, and within each timestamp the kept entries are an
initial segment of the post-put cache in original insertion order
(stable tie-break). -/
theorem c2_eviction (cache : StockCache) (symbol : String) (e : CacheEntry)
    (h : (putEntry cache symbol e).length > 50) :
    keeps50MostRecent (putEntry cache symbol e)
      (saveStockCache (putEntry cache symbol e)) :=
  saveStockCache_trim _ h

/-- Witness for c2_eviction on a 60-entry cache plus one fresh put. -/
theorem c2_witness :
    keeps50MostRecent (putEntry cacheDemo "NEW" ⟨dummyInfo, 100⟩)
      (saveStockCache (putEntry cacheDemo "NEW" ⟨dummyInfo, 100⟩)) :=
  c2_eviction cacheDemo "NEW" ⟨dummyInfo, 100⟩ (by decide)

/-! Facts about the quote resolver. -/

theorem fetchStockInfo_fresh (net : Network) (now : ℤ) (cache : StockCache)
    (symbol : String) (data : StockInfo)
    (hfresh : cacheFresh now cache symbol = some data) :
    fetchStockInfo net now cache symbol = (.ok data, cache, 0) := by
  unfold fetchStockInfo
  rw [hfresh]

theorem fetchStockInfo_miss_local (net : Network) (now : ℤ) (cache : StockCache)
    (symbol : String) (si : StockInfo)
    (hfresh : cacheFresh now cache symbol = none)
    (hlocal : fetchFromLocalServer net symbol = some si) :
    fetchStockInfo net now cache symbol
      = (.ok si, saveStockCache (putEntry cache symbol ⟨si, now⟩), 1) := by
  unfold fetchStockInfo
  rw [hfresh, hlocal]

theorem fetchStockInfo_miss_direct_ok (net : Network) (now : ℤ) (cache : StockCache)
    (symbol : String) (si : StockInfo) (n : ℕ)
    (hfresh : cacheFresh now cache symbol = none)
    (hlocal : fetchFromLocalServer net symbol = none)
    (hdir : fetchFromYahooFinanceDirect net symbol = (.ok si, n)) :
    fetchStockInfo net now cache symbol
      = (.ok si, saveStockCache (putEntry cache symbol ⟨si, now⟩), 1 + n) := by
  unfold fetchStockInfo
  rw [hfresh, hlocal, hdir]

theorem fetchStockInfo_miss_direct_err (net : Network) (now : ℤ) (cache : StockCache)
    (symbol : String) (msg : String) (n : ℕ)
    (hfresh : cacheFresh now cache symbol = none)
    (hlocal : fetchFromLocalServer net symbol = none)
    (hdir : fetchFromYahooFinanceDirect net symbol = (.error msg, n)) :
    fetchStockInfo net now cache symbol = (.errorMarker symbol symbol, cache, 1 + n) := by
  unfold fetchStockInfo
  rw [hfresh, hlocal, hdir]

theorem applyMeta_fixed (symbol : String) (base : StockInfo) (m : Option Meta) :
    (applyMeta symbol base m).marketCap = base.marketCap ∧
    (applyMeta symbol base m).marketCapFormatted = base.marketCapFormatted ∧
    (applyMeta symbol base m).source = base.source ∧
    (applyMeta symbol base m).symbol = base.symbol := by
  cases m with
  | none => exact ⟨rfl, rfl, rfl, rfl⟩
  | some meta =>
    simp only [applyMeta]
    split
    · split <;> exact ⟨rfl, rfl, rfl, rfl⟩
    · exact ⟨rfl, rfl, rfl, rfl⟩

theorem direct_fields (net : Network) (symbol : String) (si : StockInfo) (n : ℕ)
    (h : fetchFromYahooFinanceDirect net symbol = (.ok si, n)) :
    si.source = "yahoo-direct" ∧ si.marketCap = none ∧
    si.marketCapFormatted = "N/A" ∧ si.symbol = symbol := by
  rcases hq : net.quoteChart symbol with e | metaQ
  · simp only [fetchFromYahooFinanceDirect, hq] at h
    simp at h
  · simp only [fetchFromYahooFinanceDirect, hq] at h
    split at h
    · have h1 : Except.ok (ε := String) _ = Except.ok si := congrArg Prod.fst h
      have h2 := Except.ok.inj h1
      rw [← h2]
      obtain ⟨hmc, hmcf, hsrc, hsym⟩ := applyMeta_fixed symbol
        ⟨symbol, symbol, none, "N/A", "USD", none, "N/A", Perf.empty, "yahoo-direct"⟩
        metaQ
      exact ⟨hsrc, hmc, hmcf, hsym⟩
    · simp at h

/-- Claim C3: when the cache has no fresh entry for the symbol and both
adapters fail, resolve returns exactly the error marker carrying the
symbol as both symbol and name, and leaves the cache unchanged (no
fallback to a stale entry); resolve is a total function, so it never
raises to its caller. -/
theorem c3_total_failure (net : Network) (now : ℤ) (cache : StockCache)
    (symbol : String) (msg : String) (n : ℕ)
    (hfresh : cacheFresh now cache symbol = none)
    (hlocal : net.localServer symbol = none)
    (hdir : fetchFromYahooFinanceDirect net symbol = (.error msg, n)) :
    fetchStockInfo net now cache symbol = (.errorMarker symbol symbol, cache, 1 + n) := by
  have hl : fetchFromLocalServer net symbol = none := by
    rw [fetchFromLocalServer, hlocal]
    rfl
  exact fetchStockInfo_miss_direct_err net now cache symbol msg n hfresh hl hdir

/-- Witness for c3_total_failure: symbol ZZZZ, a stale cached entry,
both adapters failing. -/
theorem c3_witness :
    fetchStockInfo netFail CACHE_DURATION staleCache "ZZZZ"
      = (.errorMarker "ZZZZ" "ZZZZ", staleCache, 2) :=
  c3_total_failure netFail CACHE_DURATION staleCache "ZZZZ" "fetch failed" 1
    (by decide) rfl rfl

/-- Claim C4, corrected: a fresh cache entry is returned immediately
with zero network requests, and when a first (non-fresh) call succeeds
on a cache below the 50-entry cap, a second call within the freshness
window is served from the cache written by the first call, again with
zero network requests; the total over the two calls therefore equals the
first call's request count, which can exceed one. -/
theorem c4_cache_behavior :
    (∀ (net : Network) (now : ℤ) (cache : StockCache) (symbol : String)
      (data : StockInfo), cacheFresh now cache symbol = some data →
      fetchStockInfo net now cache symbol = (.ok data, cache, 0)) ∧
    (∀ (net : Network) (now1 now2 : ℤ) (cache : StockCache) (symbol : String),
      cache.length < 50 →
      cacheFresh now1 cache symbol = none →
      (fetchStockInfo net now1 cache symbol).1.isOk = true →
      now1 ≤ now2 → now2 - now1 < CACHE_DURATION →
      fetchStockInfo net now2 (fetchStockInfo net now1 cache symbol).2.1 symbol
        = ((fetchStockInfo net now1 cache symbol).1,
           (fetchStockInfo net now1 cache symbol).2.1, 0)) := by
  constructor
  · intro net now cache symbol data hfresh
    exact fetchStockInfo_fresh net now cache symbol data hfresh
  · intro net now1 now2 cache symbol hlen hmiss hok h12 hdur
    have hsecond : ∀ si : StockInfo,
        fetchStockInfo net now1 cache symbol
          = (.ok si, saveStockCache (putEntry cache symbol ⟨si, now1⟩),
             (fetchStockInfo net now1 cache symbol).2.2) →
        fetchStockInfo net now2 (fetchStockInfo net now1 cache symbol).2.1 symbol
          = ((fetchStockInfo net now1 cache symbol).1,
             (fetchStockInfo net now1 cache symbol).2.1, 0) := by
      intro si h1
      have hple : (putEntry cache symbol ⟨si, now1⟩).length ≤ 50 := by
        have hp := putEntry_length cache symbol ⟨si, now1⟩
        omega
      have hsmall := saveStockCache_small hple
      have hc1 : (fetchStockInfo net now1 cache symbol).2.1
          = putEntry cache symbol ⟨si, now1⟩ := by
        rw [h1]
        exact hsmall
      have hfind : findEntry (putEntry cache symbol ⟨si, now1⟩) symbol
          = some ⟨si, now1⟩ := findEntry_putEntry cache symbol ⟨si, now1⟩
      have hfresh2 : cacheFresh now2 (putEntry cache symbol ⟨si, now1⟩) symbol
          = some si := by
        rw [cacheFresh, hfind]
        exact if_pos hdur
      have hres1 : (fetchStockInfo net now1 cache symbol).1 = .ok si := by
        rw [h1]
      rw [hc1, hres1]
      exact fetchStockInfo_fresh net now2 _ symbol si hfresh2
    rcases hl : fetchFromLocalServer net symbol with _ | si
    · rcases hd : fetchFromYahooFinanceDirect net symbol with ⟨res, n⟩
      cases res with
      | ok si =>
        have h1 := fetchStockInfo_miss_direct_ok net now1 cache symbol si n hmiss hl hd
        exact hsecond si (by rw [h1])
      | error msg =>
        have h1 := fetchStockInfo_miss_direct_err net now1 cache symbol msg n hmiss hl hd
        rw [h1] at hok
        simp [QuoteResult.isOk] at hok
    · have h1 := fetchStockInfo_miss_local net now1 cache symbol si hmiss hl
      exact hsecond si (by rw [h1])

/-- Counterexample to claim C4 as stated: two resolutions of AAPL
within the freshness window, the first missing the cache with the local
adapter down, issue six network requests in total, not at most one; all
six belong to the first call and the second call issues zero. -/
theorem c4_counterexample :
    (fetchStockInfo netDirect 0 [] "AAPL").2.2 = 6 ∧
    (fetchStockInfo netDirect 1 (fetchStockInfo netDirect 0 [] "AAPL").2.1 "AAPL").2.2
      = 0 ∧
    ¬((fetchStockInfo netDirect 0 [] "AAPL").2.2
        + (fetchStockInfo netDirect 1
            (fetchStockInfo netDirect 0 [] "AAPL").2.1 "AAPL").2.2 ≤ 1) := by
  refine ⟨?_, ?_, ?_⟩ <;> decide

/-- Witness for c4_cache_behavior: a fresh hit served with zero
requests, and a second call served from the cache the first call wrote. -/
theorem c4_witness :
    fetchStockInfo netFail 0 staleCache "ZZZZ" = (.ok dummyInfo, staleCache, 0) ∧
    fetchStockInfo netDirect 1 (fetchStockInfo netDirect 0 [] "AAPL").2.1 "AAPL"
      = ((fetchStockInfo netDirect 0 [] "AAPL").1,
         (fetchStockInfo netDirect 0 [] "AAPL").2.1, 0) :=
  ⟨c4_cache_behavior.1 netFail 0 staleCache "ZZZZ" dummyInfo (by decide),
   c4_cache_behavior.2 netDirect 0 1 [] "AAPL" (by decide) (by decide) (by decide)
     (by decide) (by decide)⟩

/-- Claim C8: when the local adapter fails and the direct adapter
succeeds, the resolved quote is the direct adapter's quote, tagged with
the direct source (the yahoo-direct tag), with a null market cap and the
literal N/A formatted market cap: the direct source never populates
market capitalization. -/
theorem c8_direct_no_marketcap (net : Network) (now : ℤ) (cache : StockCache)
    (symbol : String) (si : StockInfo) (n : ℕ)
    (hfresh : cacheFresh now cache symbol = none)
    (hlocal : net.localServer symbol = none)
    (hdir : fetchFromYahooFinanceDirect net symbol = (.ok si, n)) :
    (fetchStockInfo net now cache symbol).1 = .ok si ∧
    si.source = "yahoo-direct" ∧ si.marketCap = none ∧
    si.marketCapFormatted = "N/A" := by
  have hl : fetchFromLocalServer net symbol = none := by
    rw [fetchFromLocalServer, hlocal]
    rfl
  have h1 := fetchStockInfo_miss_direct_ok net now cache symbol si n hfresh hl hdir
  obtain ⟨hsrc, hmc, hmcf, _⟩ := direct_fields net symbol si n hdir
  exact ⟨by rw [h1], hsrc, hmc, hmcf⟩

/-- Witness for c8_direct_no_marketcap. -/
theorem c8_witness :
    (fetchStockInfo netDirect 0 [] "AAPL").1 = .ok directInfoAAPL ∧
    directInfoAAPL.source = "yahoo-direct" ∧ directInfoAAPL.marketCap = none ∧
    directInfoAAPL.marketCapFormatted = "N/A" :=
  c8_direct_no_marketcap netDirect 0 [] "AAPL" directInfoAAPL 5 rfl rfl (by decide)

/-- Counterexample to claim C9 as stated: resolve does not normalize
the symbol.  With a fresh cache entry under AAPL and every adapter
failing, resolving the lowercase symbol misses the cache and returns an
error marker carrying the lowercase string, while resolving its
uppercased trimmed form is served from the cache, so the two behave
differently. -/
theorem c9_counterexample :
    "aapl".data.map Char.toUpper = "AAPL".data ∧
    (fetchStockInfo netFail 0 [("AAPL", ⟨dummyInfo, 0⟩)] "AAPL").1 = .ok dummyInfo ∧
    (fetchStockInfo netFail 0 [("AAPL", ⟨dummyInfo, 0⟩)] "aapl").1
      = .errorMarker "aapl" "aapl" ∧
    (fetchStockInfo netFail 0 [("AAPL", ⟨dummyInfo, 0⟩)] "aapl").1
      ≠ (fetchStockInfo netFail 0 [("AAPL", ⟨dummyInfo, 0⟩)] "AAPL").1 := by
  refine ⟨?_, ?_, ?_, ?_⟩ <;> decide

/-- Claim C9, corrected: resolve performs no normalization and uses the
input string verbatim: the error marker carries the input string, the
direct adapter's quote carries the input string as its symbol, and a
successful non-fresh resolution caches its quote under the input string
as key. -/
theorem c9_no_normalization (net : Network) (now : ℤ) (cache : StockCache)
    (symbol : String) :
    (∀ a b, (fetchStockInfo net now cache symbol).1 = .errorMarker a b →
      a = symbol ∧ b = symbol) ∧
    (∀ si n, fetchFromYahooFinanceDirect net symbol = (.ok si, n) →
      si.symbol = symbol) ∧
    (cache.length < 50 → cacheFresh now cache symbol = none →
      ∀ si, (fetchStockInfo net now cache symbol).1 = .ok si →
        findEntry (fetchStockInfo net now cache symbol).2.1 symbol
          = some ⟨si, now⟩) := by
  refine ⟨?_, ?_, ?_⟩
  · intro a b h
    rcases hfr : cacheFresh now cache symbol with _ | data
    · rcases hl : fetchFromLocalServer net symbol with _ | s
      · rcases hd : fetchFromYahooFinanceDirect net symbol with ⟨res, n⟩
        cases res with
        | ok s =>
          rw [fetchStockInfo_miss_direct_ok net now cache symbol s n hfr hl hd] at h
          simp at h
        | error msg =>
          rw [fetchStockInfo_miss_direct_err net now cache symbol msg n hfr hl hd] at h
          have h2 : QuoteResult.errorMarker symbol symbol = .errorMarker a b := h
          injection h2 with h3 h4
          exact ⟨h3.symm, h4.symm⟩
      · rw [fetchStockInfo_miss_local net now cache symbol s hfr hl] at h
        simp at h
    · rw [fetchStockInfo_fresh net now cache symbol data hfr] at h
      simp at h
  · intro si n hdir
    exact (direct_fields net symbol si n hdir).2.2.2
  · intro hlen hfr si hok
    rcases hl : fetchFromLocalServer net symbol with _ | s
    · rcases hd : fetchFromYahooFinanceDirect net symbol with ⟨res, n⟩
      cases res with
      | ok s =>
        have h1 := fetchStockInfo_miss_direct_ok net now cache symbol s n hfr hl hd
        rw [h1] at hok
        simp only [] at hok
        have hss : s = si := by
          have : QuoteResult.ok s = .ok si := hok
          injection this
        subst hss
        rw [h1]
        have hple : (putEntry cache symbol ⟨s, now⟩).length ≤ 50 := by
          have hp := putEntry_length cache symbol ⟨s, now⟩
          omega
        show findEntry (saveStockCache (putEntry cache symbol ⟨s, now⟩)) symbol
          = some ⟨s, now⟩
        rw [saveStockCache_small hple]
        exact findEntry_putEntry cache symbol ⟨s, now⟩
      | error msg =>
        have h1 := fetchStockInfo_miss_direct_err net now cache symbol msg n hfr hl hd
        rw [h1] at hok
        simp at hok
    · have h1 := fetchStockInfo_miss_local net now cache symbol s hfr hl
      rw [h1] at hok
      have hss : s = si := by
        have : QuoteResult.ok s = .ok si := hok
        injection this
      subst hss
      rw [h1]
      have hple : (putEntry cache symbol ⟨s, now⟩).length ≤ 50 := by
        have hp := putEntry_length cache symbol ⟨s, now⟩
        omega
      show findEntry (saveStockCache (putEntry cache symbol ⟨s, now⟩)) symbol
        = some ⟨s, now⟩
      rw [saveStockCache_small hple]
      exact findEntry_putEntry cache symbol ⟨s, now⟩

/-- Witness for c9_no_normalization. -/
theorem c9_witness :
    ("zzzz" = "zzzz" ∧ "zzzz" = "zzzz") ∧
    directInfoAAPL.symbol = "AAPL" ∧
    findEntry (fetchStockInfo netDirect 0 [] "AAPL").2.1 "AAPL"
      = some ⟨directInfoAAPL, 0⟩ :=
  ⟨(c9_no_normalization netFail 0 [] "zzzz").1 "zzzz" "zzzz" (by decide),
   (c9_no_normalization netDirect 0 [] "AAPL").2.1 directInfoAAPL 5 (by decide),
   (c9_no_normalization netDirect 0 [] "AAPL").2.2 (by decide) (by decide)
     directInfoAAPL (by decide)⟩

/-! Facts about the top-5 selections of getStats. -/

theorem countLE_trans : ∀ a b c : String × ℕ,
    countLE a b = true → countLE b c = true → countLE a c = true := by
  intro a b c hab hbc
  simp only [countLE, decide_eq_true_eq] at *
  omega

theorem countLE_total : ∀ a b : String × ℕ,
    countLE a b = true ∨ countLE b a = true := by
  intro a b
  simp only [countLE, decide_eq_true_eq]
  omega

theorem topOf_facts (m : List (String × ℕ)) :
    ((sortBy countLE m).take 5).length ≤ 5 ∧
    ((sortBy countLE m).take 5).Pairwise (fun a b => b.2 ≤ a.2) ∧
    (∀ p ∈ (sortBy countLE m).take 5, p ∈ m) ∧
    (∀ p ∈ (sortBy countLE m).take 5, ∀ q ∈ m,
      q.1 ∉ ((sortBy countLE m).take 5).map Prod.fst → q.2 ≤ p.2) := by
  have hperm := sortBy_perm countLE m
  have hpw := sortBy_pairwise countLE countLE_trans countLE_total m
  refine ⟨?_, ?_, ?_, ?_⟩
  · rw [List.length_take]
    omega
  · have hs : ((sortBy countLE m).take 5).Pairwise (fun a b => countLE a b = true) :=
      hpw.sublist (List.take_sublist 5 _)
    refine hs.imp ?_
    intro a b h
    simpa [countLE] using h
  · intro p hp
    exact hperm.mem_iff.mp (List.take_subset 5 _ hp)
  · intro p hp q hq hqkeys
    have hq2 : q ∈ (sortBy countLE m).take 5 ++ (sortBy countLE m).drop 5 := by
      rw [List.take_append_drop]
      exact hperm.mem_iff.mpr hq
    rcases List.mem_append.mp hq2 with hq3 | hq3
    · exact absurd (List.mem_map_of_mem Prod.fst hq3) hqkeys
    · have := sortBy_take_drop_le countLE countLE_trans countLE_total m 5 p hp q hq3
      simpa [countLE] using this

/-- Claim C7: getStats returns the record count, the number of distinct
tickers, top-5 ticker and author count pairs sorted by count descending
whose counts are the true occurrence counts and whose entries dominate
every count pair left out, and the first three records; on the empty
list everything is zero or empty rather than an error. -/
theorem c7_getStats :
    getStats [] = ⟨0, 0, [], [], []⟩ ∧
    ∀ tweets : List Tweet,
      (getStats tweets).totalTweets = tweets.length ∧
      (getStats tweets).recentTweets = tweets.take 3 ∧
      (getStats tweets).totalTickers = (allTickers tweets).toFinset.card ∧
      (getStats tweets).topTickers.length ≤ 5 ∧
      (getStats tweets).topTickers.Pairwise (fun a b => b.2 ≤ a.2) ∧
      (∀ p ∈ (getStats tweets).topTickers, p.2 = (allTickers tweets).count p.1) ∧
      (∀ p ∈ (getStats tweets).topTickers, ∀ q ∈ tickerCounts tweets,
        q.1 ∉ (getStats tweets).topTickers.map Prod.fst → q.2 ≤ p.2) ∧
      (getStats tweets).topAuthors.length ≤ 5 ∧
      (getStats tweets).topAuthors.Pairwise (fun a b => b.2 ≤ a.2) ∧
      (∀ p ∈ (getStats tweets).topAuthors, p.2 = (authorsOf tweets).count p.1) ∧
      (∀ p ∈ (getStats tweets).topAuthors, ∀ q ∈ authorCounts tweets,
        q.1 ∉ (getStats tweets).topAuthors.map Prod.fst → q.2 ≤ p.2) := by
  constructor
  · rfl
  · intro tweets
    have hT : (getStats tweets).topTickers
        = (sortBy countLE (tickerCounts tweets)).take 5 := rfl
    have hA : (getStats tweets).topAuthors
        = (sortBy countLE (authorCounts tweets)).take 5 := rfl
    obtain ⟨hT1, hT2, hT3, hT4⟩ := topOf_facts (tickerCounts tweets)
    obtain ⟨hA1, hA2, hA3, hA4⟩ := topOf_facts (authorCounts tweets)
    refine ⟨rfl, rfl, ?_, ?_, ?_, ?_, ?_, ?_, ?_, ?_, ?_⟩
    · show (tickerCounts tweets).length = (allTickers tweets).toFinset.card
      have hkeys : (tickerCounts tweets).map Prod.fst
          = (countsOf (allTickers tweets)).map Prod.fst := by
        rw [tickerCounts_eq]
      have hnd : ((tickerCounts tweets).map Prod.fst).Nodup := by
        rw [hkeys]
        exact countsOf_keys_nodup (allTickers tweets)
      have hlen : (tickerCounts tweets).length
          = ((tickerCounts tweets).map Prod.fst).length := (List.length_map _ _).symm
      have hfin : ((tickerCounts tweets).map Prod.fst).toFinset
          = (allTickers tweets).toFinset := by
        apply Finset.ext
        intro a
        rw [List.mem_toFinset, List.mem_toFinset, hkeys]
        exact countsOf_mem_keys (allTickers tweets) a
      rw [hlen, ← List.toFinset_card_of_nodup hnd, hfin]
    · rw [hT]; exact hT1
    · rw [hT]; exact hT2
    · intro p hp
      rw [hT] at hp
      have hpm : p ∈ tickerCounts tweets := hT3 p hp
      rw [tickerCounts_eq] at hpm
      exact countsOf_count hpm
    · intro p hp q hq hk
      rw [hT] at hp hk
      exact hT4 p hp q hq hk
    · rw [hA]; exact hA1
    · rw [hA]; exact hA2
    · intro p hp
      rw [hA] at hp
      have hpm : p ∈ authorCounts tweets := hA3 p hp
      rw [authorCounts_eq] at hpm
      exact countsOf_count hpm
    · intro p hp q hq hk
      rw [hA] at hp hk
      exact hA4 p hp q hq hk

/-- Witness for c7_getStats on the three-record scenario with tickers
AAPL; TSLA, AAPL; GME. -/
theorem c7_witness :
    (getStats demoTweets).totalTweets = demoTweets.length ∧
    ((("AAPL", 2) : String × ℕ).2 = (allTickers demoTweets).count "AAPL") ∧
    (getStats demoTweets).recentTweets = demoTweets.take 3 :=
  ⟨(c7_getStats.2 demoTweets).1,
   (c7_getStats.2 demoTweets).2.2.2.2.2.1 ("AAPL", 2) (by decide),
   (c7_getStats.2 demoTweets).2.1⟩
